import Mathlib

/-!
Shallow embedding of `src/mpm/main.py` (the "Man MCP" server).

The Python module exposes two MCP tool operations, `get_manpage` and
`search_descriptions`, built from two regex validators and a wrapper
`execute_call` around `subprocess.run`.  The external process is modelled
as an oracle `spRun : List String → Except PyExc CompletedProcess`: a
normal completion yields `Except.ok` with the captured return code,
stdout and stderr, while a raised `subprocess.TimeoutExpired` or any
other exception is `Except.error`.  Both tool operations additionally
return the trace of argument vectors passed to the executor, so that
"the external process is never invoked" and "invoked with argv exactly
..." are statable facts.
-/

/-- Model of Python exceptions that `sp.run` can raise inside
`execute_call`: `sp.TimeoutExpired` (caught first in the source) and any
other `Exception` (caught by the generic handler).  The payload is the
string rendering of the exception object. -/
inductive PyExc where
  | timeoutExpired (msg : String)
  | other (msg : String)
deriving DecidableEq, Repr

/-- Model of `subprocess.CompletedProcess[str]` as captured with
`capture_output=True, text=True`. -/
structure CompletedProcess where
  returncode : Int
  stdout : String
  stderr : String
deriving DecidableEq, Repr

/-- Model of `class InputValidationError(BaseModel)` from the source. -/
structure InputValidationError where
  input : String
  note : String
deriving DecidableEq, Repr

/-- Model of `class ManError(BaseModel)` from the source. -/
structure ManError where
  stdout : String
  stderr : String
  return_code : Int
  note : String
deriving DecidableEq, Repr

/-- Model of `class ManSearchResult(BaseModel)` from the source. -/
structure ManSearchResult where
  results : List String
deriving DecidableEq, Repr

/-- Model of `class ManPage(BaseModel)` from the source. -/
structure ManPage where
  text : String
deriving DecidableEq, Repr

/-- The union type `ManError | ManSearchResult | ManPage |
InputValidationError` of the `result` field of `ManResult`. -/
inductive ManResultUnion where
  | err (e : ManError)
  | search (r : ManSearchResult)
  | page (p : ManPage)
  | invalid (v : InputValidationError)
deriving DecidableEq, Repr

/-- Model of `class ManResult(BaseModel)` from the source: the envelope holding
exactly one variant in its `result` field. -/
structure ManResult where
  result : ManResultUnion
deriving DecidableEq, Repr

/-- A character of the class `[a-zA-Z0-9_\-]` used for the first segment
of `ALLOWED_TOPIC_INPUT`.  `Char.isAlpha`/`Char.isDigit` are exactly the
ASCII ranges, matching the Python character classes. -/
def isTopicFirstChar (c : Char) : Bool :=
  c.isAlpha || c.isDigit || c == '_' || c == '-'

/-- A character of the class `[a-zA-Z0-9_]` used for the segments after a
dot in `ALLOWED_TOPIC_INPUT` (no hyphen after the first dot). -/
def isTopicRestChar (c : Char) : Bool :=
  c.isAlpha || c.isDigit || c == '_'

/-- Left-to-right scanner recognising the language of
`ALLOWED_TOPIC_INPUT = ^[a-zA-Z0-9_\-]+(\.[a-zA-Z0-9_]+)*$` under
`fullmatch`.  `firstSeg` records whether we are still inside the first
segment (whose class also admits `-`); `needChar` records whether the
current segment has not yet consumed a character (each segment is
one-or-more).  A dot closes a non-empty segment and opens a later
segment; the scan accepts at the end iff the current segment is
non-empty. -/
def topicScan : Bool → Bool → List Char → Bool
  | _, needChar, [] => !needChar
  | firstSeg, needChar, c :: cs =>
    if c = '.' then !needChar && topicScan false true cs
    else
      cond firstSeg (isTopicFirstChar c) (isTopicRestChar c) &&
        topicScan firstSeg false cs

/-- Translation of `validate_topic` from the source:
`bool(ALLOWED_TOPIC_INPUT.fullmatch(input))`. -/
def validate_topic (s : String) : Bool :=
  topicScan true true s.data

/-- Model of Python's `\s` character class (ASCII part; the regex engine
also matches some Unicode whitespace, which no claim depends on). -/
def isPySpace (c : Char) : Bool :=
  c == ' ' || c == '\t' || c == '\n' || c == '\r' || c == '\x0b' || c == '\x0c'

/-- A character of the class of `ALLOWED_SEARCH_INPUT =
^[a-zA-Z0-9\s\.\,\:\/'\"\(\)\[\]\{\}\*\+\?\|\^\$_\-]+$`. -/
def isSearchChar (c : Char) : Bool :=
  c.isAlpha || c.isDigit || isPySpace c ||
  c == '.' || c == ',' || c == ':' || c == '/' || c == '\x27' || c == '"' ||
  c == '(' || c == ')' || c == '[' || c == ']' || c == '\x7b' || c == '\x7d' ||
  c == '*' || c == '+' || c == '?' || c == '|' || c == '^' || c == '$' ||
  c == '_' || c == '-'

/-- Translation of `validate_search_query` from the source:
`bool(ALLOWED_SEARCH_INPUT.fullmatch(input))`; a `X+`-shaped fullmatch
holds iff the string is non-empty and every character is in the class. -/
def validate_search_query (s : String) : Bool :=
  !s.data.isEmpty && s.data.all isSearchChar

/-- Decides whether `needle` is a (leading) segment of `hay`, mirroring
list-by-list character comparison. -/
def listPre : List Char → List Char → Bool
  | [], _ => true
  | _ :: _, [] => false
  | a :: as, b :: bs => a == b && listPre as bs

/-- Decides whether `needle` occurs contiguously inside `hay`; models
Python's `needle in hay` on strings. -/
def occursIn (needle : List Char) : List Char → Bool
  | [] => needle.isEmpty
  | c :: rest => listPre needle (c :: rest) || occursIn needle rest

/-- Containment test `needle in hay` on `String`, via the underlying character lists. -/
def strContains (hay needle : String) : Bool :=
  occursIn needle.data hay.data

/-- The note accumulation of `execute_call`: a completed process is
inspected in source order (stderr, the "No manual entry for " marker in
stdout, then the return code) and the notes are concatenated. -/
def execNote (process : CompletedProcess) : String :=
  let note1 : String :=
    if process.stderr = "" then ""
    else "Unexpected error encountered: " ++ process.stderr ++ "\n"
  let note2 : String :=
    if strContains process.stdout "No manual entry for " then
      note1 ++ (process.stdout ++ "\n")
    else note1
  if process.returncode = 0 then note2
  else note2 ++ ("Non zero return code \x60" ++ toString process.returncode ++ "\x60\n")

/-- Translation of `execute_call` from the source.  The `try/except` around `sp.run`
catches `sp.TimeoutExpired` and every other `Exception`, so every
`Except.error` outcome of the oracle is converted to a `ManError`; a
non-empty accumulated note yields a `ManError` carrying the real
captured streams and return code, while an empty note returns the
completed process unchanged. -/
def execute_call (spRun : List String → Except PyExc CompletedProcess)
    (args : List String) : Sum ManError CompletedProcess :=
  match spRun args with
  | Except.error (PyExc.timeoutExpired msg) =>
    Sum.inl ⟨"", "", -1, "Timeout exception " ++ msg ++ "."⟩
  | Except.error (PyExc.other msg) =>
    Sum.inl ⟨"", "", -1, "Unknown exception " ++ msg ++ "."⟩
  | Except.ok process =>
    if execNote process = "" then Sum.inr process
    else Sum.inl ⟨process.stdout, process.stderr, process.returncode, execNote process⟩

/-- One step of Python's `str.splitlines`: `acc` holds the current line
reversed; a line boundary (`\r\n` counting as one) emits the current
line; at the end a pending non-empty line is emitted, so a trailing
terminator produces no trailing empty entry. -/
def splitlinesGo : List Char → List Char → List String
  | [], acc => if acc.isEmpty then [] else [⟨acc.reverse⟩]
  | '\r' :: '\n' :: rest, acc => ⟨acc.reverse⟩ :: splitlinesGo rest []
  | c :: rest, acc =>
    if c == '\n' || c == '\r' || c == '\x0b' || c == '\x0c' ||
       c == '\x1c' || c == '\x1d' || c == '\x1e' || c == '\x85' ||
       c == '\u2028' || c == '\u2029' then
      ⟨acc.reverse⟩ :: splitlinesGo rest []
    else splitlinesGo rest (c :: acc)

/-- Python's `str.splitlines()` as used in `search_descriptions`. -/
def splitlines (s : String) : List String :=
  splitlinesGo s.data []

/-- The rejection note of `search_descriptions` for an invalid query. -/
def queryRejectNote : String := "Query contains invalid characters"

/-- The rejection note of `get_manpage` for an invalid page name (the two
adjacent literals of the source concatenated). -/
def topicRejectNote : String :=
  "Page name must contain only alphanumeric characters, underscores and dashes. Optionally followed by a \x27.\x27 and number for section."

/-- Translation of `search_descriptions` from the source, instrumented with the trace of
argument vectors passed to `execute_call` (empty when validation rejects
the query before any invocation). -/
def search_descriptions (spRun : List String → Except PyExc CompletedProcess)
    (query : String) : ManResult × List (List String) :=
  if validate_search_query query then
    match execute_call spRun ["man", "-k", query] with
    | Sum.inl e => (⟨ManResultUnion.err e⟩, [["man", "-k", query]])
    | Sum.inr out =>
      (⟨ManResultUnion.search ⟨splitlines out.stdout⟩⟩, [["man", "-k", query]])
  else (⟨ManResultUnion.invalid ⟨query, queryRejectNote⟩⟩, [])

/-- Translation of `get_manpage` from the source, instrumented with the trace of
argument vectors passed to `execute_call`.  `if section:` in Python is
false for both `None` and `0`, so only a non-zero provided section is
stringified into the argument vector. -/
def get_manpage (spRun : List String → Except PyExc CompletedProcess)
    (page : String) (sect : Option Int) : ManResult × List (List String) :=
  if validate_topic page then
    let args : List String :=
      match sect with
      | none => ["man", page]
      | some s => if s = 0 then ["man", page] else ["man", toString s, page]
    match execute_call spRun args with
    | Sum.inl e => (⟨ManResultUnion.err e⟩, [args])
    | Sum.inr out => (⟨ManResultUnion.page ⟨out.stdout⟩⟩, [args])
  else (⟨ManResultUnion.invalid ⟨page, topicRejectNote⟩⟩, [])

example : validate_topic "ls" = true := by decide
example : validate_topic "bash.1.gz" = true := by decide
example : validate_topic "my_script-name" = true := by decide
example : validate_topic "" = false := by decide
example : validate_topic "ls; rm -rf /" = false := by decide
example : validate_topic "page with spaces" = false := by decide
example : validate_topic "a.b-c" = false := by decide
example : validate_topic "a..b" = false := by decide
example : validate_topic "a." = false := by decide
example : validate_search_query "network.*(socket|bind)" = true := by decide
example : validate_search_query "copy files" = true := by decide
example : validate_search_query "\x60reboot\x60" = false := by decide
example : validate_search_query "search; ls" = false := by decide
example : validate_search_query "bad<char" = false := by decide
example : splitlines "ls (1) - list directory contents\n" =
    ["ls (1) - list directory contents"] := by decide
example : splitlines "a\nb" = ["a", "b"] := by decide
example : splitlines "" = [] := by decide
example : splitlines "a\r\n\n" = ["a", ""] := by decide
example : strContains "xNo manual entry for foo" "No manual entry for " = true := by
  decide
example : toString (3 : Int) = "3" := by decide
example : toString (-1 : Int) = "-1" := by decide

/-- Characters of `[a-zA-Z0-9_]` also belong to `[a-zA-Z0-9_\-]`. -/
lemma isTopicFirstChar_of_rest {c : Char} (h : isTopicRestChar c = true) :
    isTopicFirstChar c = true := by
  simp only [isTopicRestChar, Bool.or_eq_true] at h
  simp only [isTopicFirstChar, Bool.or_eq_true]
  tauto

/-- Every character of a string accepted by the topic scanner is either in
the first-segment class or a dot. -/
lemma topicScan_mem (cs : List Char) : ∀ f b : Bool, topicScan f b cs = true →
    ∀ c ∈ cs, isTopicFirstChar c = true ∨ c = '.' := by
  induction cs with
  | nil => intro f b _ c hc; simp at hc
  | cons d ds ih =>
    intro f b h c hc
    rw [topicScan] at h
    by_cases hd : d = '.'
    · rw [if_pos hd, Bool.and_eq_true] at h
      rcases List.mem_cons.mp hc with rfl | hc'
      · exact Or.inr hd
      · exact ih false true h.2 c hc'
    · rw [if_neg hd, Bool.and_eq_true] at h
      rcases List.mem_cons.mp hc with rfl | hc'
      · left
        cases f with
        | true => simpa using h.1
        | false => exact isTopicFirstChar_of_rest (by simpa using h.1)
      · exact ih f false h.2 c hc'

/-- Scanning a run of first-class characters inside the first segment
consumes them and clears the needs-a-character flag when the run is
non-empty. -/
lemma topicScan_append_first (seg : List Char) (r : List Char) (b : Bool)
    (h : ∀ c ∈ seg, isTopicFirstChar c = true) :
    topicScan true b (seg ++ r) = topicScan true (b && seg.isEmpty) r := by
  induction seg generalizing b with
  | nil => simp
  | cons d ds ih =>
    have hd : isTopicFirstChar d = true := h d (by simp)
    have hdot : d ≠ '.' := by
      rintro rfl; exact absurd hd (by decide)
    rw [List.cons_append, topicScan, if_neg hdot]
    simp only [Bool.cond_true]
    rw [hd, Bool.true_and, ih false (fun c hc => h c (by simp [hc]))]
    simp

/-- Scanning a run of rest-class characters inside a later segment
consumes them and clears the needs-a-character flag when the run is
non-empty. -/
lemma topicScan_append_rest (seg : List Char) (r : List Char) (b : Bool)
    (h : ∀ c ∈ seg, isTopicRestChar c = true) :
    topicScan false b (seg ++ r) = topicScan false (b && seg.isEmpty) r := by
  induction seg generalizing b with
  | nil => simp
  | cons d ds ih =>
    have hd : isTopicRestChar d = true := h d (by simp)
    have hdot : d ≠ '.' := by
      rintro rfl; exact absurd hd (by decide)
    rw [List.cons_append, topicScan, if_neg hdot]
    simp only [Bool.cond_false]
    rw [hd, Bool.true_and, ih false (fun c hc => h c (by simp [hc]))]
    simp

/-- The concatenation `.seg1.seg2...` of the later segments of a topic
pattern. -/
def dotJoin (rest : List (List Char)) : List Char :=
  (rest.map (fun t => '.' :: t)).flatten

/-- The scanner accepts the later segments of a well-formed topic pattern
from any state that has already consumed at least one character. -/
lemma topicScan_dotJoin (rest : List (List Char))
    (h : ∀ t ∈ rest, t ≠ [] ∧ ∀ c ∈ t, isTopicRestChar c = true) :
    ∀ f : Bool, topicScan f false (dotJoin rest) = true := by
  induction rest with
  | nil => intro f; simp [dotJoin, topicScan]
  | cons t ts ih =>
    intro f
    obtain ⟨hne, hall⟩ := h t (by simp)
    obtain ⟨d, ds, rfl⟩ := List.exists_cons_of_ne_nil hne
    have hd : isTopicRestChar d = true := hall d (by simp)
    have hdot : d ≠ '.' := by
      rintro rfl; exact absurd hd (by decide)
    show topicScan f false ((('.' :: (d :: ds)) ++ dotJoin ts)) = true
    rw [List.cons_append, topicScan, if_pos rfl]
    simp only [Bool.not_false, Bool.true_and]
    rw [List.cons_append, topicScan, if_neg hdot]
    simp only [Bool.cond_false]
    rw [hd, Bool.true_and,
      topicScan_append_rest ds (dotJoin ts) false (fun c hc => hall c (by simp [hc]))]
    simpa using ih (fun u hu => h u (by simp [hu])) false

/-- C3: every string matching the pattern
`[A-Za-z0-9_-]+(.[A-Za-z0-9_]+)*` from start to end — presented by its
parse as a first segment followed by dot-introduced later segments — is
accepted by `validate_topic`; the empty string and every string
containing a space character are rejected. -/
theorem c3_validate_topic_characterisation :
    (∀ (first : List Char) (rest : List (List Char)),
        first ≠ [] → (∀ c ∈ first, isTopicFirstChar c = true) →
        (∀ t ∈ rest, t ≠ [] ∧ ∀ c ∈ t, isTopicRestChar c = true) →
        validate_topic ⟨first ++ dotJoin rest⟩ = true)
    ∧ validate_topic "" = false
    ∧ (∀ s : String, ' ' ∈ s.data → validate_topic s = false) := by
  refine ⟨?_, by decide, ?_⟩
  · intro first rest hne hfirst hrest
    obtain ⟨d, ds, rfl⟩ := List.exists_cons_of_ne_nil hne
    have hd : isTopicFirstChar d = true := hfirst d (by simp)
    have hdot : d ≠ '.' := by
      rintro rfl; exact absurd hd (by decide)
    show topicScan true true (((d :: ds) ++ dotJoin rest)) = true
    rw [List.cons_append, topicScan, if_neg hdot]
    simp only [Bool.cond_true]
    rw [hd, Bool.true_and,
      topicScan_append_first ds (dotJoin rest) false (fun c hc => hfirst c (by simp [hc]))]
    simpa using topicScan_dotJoin rest hrest true
  · intro s hs
    refine Bool.eq_false_iff.mpr fun hv => ?_
    rcases topicScan_mem s.data true true hv ' ' hs with h | h
    · exact absurd h (by decide)
    · exact absurd h (by decide)

/-- Witness for C3 at the concrete topic pattern `ls.1` and the
space-containing string `a b`. -/
theorem c3_witness :
    validate_topic ⟨['l', 's'] ++ dotJoin [['1']]⟩ = true ∧
    validate_topic "a b" = false :=
  ⟨c3_validate_topic_characterisation.1 ['l', 's'] [['1']]
      (by decide) (by decide) (by decide),
   c3_validate_topic_characterisation.2.2 "a b" (by decide)⟩

/-- The set of shell metacharacters named by the specification. -/
def shellMetachars : List Char :=
  [';', '|', '&', '$', '\x60', '(', ')', '<', '>', '\n']

/-- C1: every page argument containing one of the shell metacharacters
`; | & $ backtick ( ) < >` or a newline makes `get_manpage` return the
`InputValidationError` variant, and the external process executor is
never invoked (the invocation trace is empty), for every process oracle
and every section argument. -/
theorem c1_metachar_never_executes
    (f : List String → Except PyExc CompletedProcess) (page : String)
    (sect : Option Int) (c : Char) (hc : c ∈ page.data)
    (hm : c ∈ shellMetachars) :
    (get_manpage f page sect).1 =
      ⟨ManResultUnion.invalid ⟨page, topicRejectNote⟩⟩ ∧
    (get_manpage f page sect).2 = [] := by
  have hbad : isTopicFirstChar c = false ∧ c ≠ '.' := by
    simp only [shellMetachars, List.mem_cons, List.not_mem_nil, or_false] at hm
    rcases hm with rfl | rfl | rfl | rfl | rfl | rfl | rfl | rfl | rfl | rfl <;>
      exact ⟨by decide, by decide⟩
  have hval : validate_topic page = false := by
    refine Bool.eq_false_iff.mpr fun hv => ?_
    rcases topicScan_mem page.data true true hv c hc with h | h
    · rw [hbad.1] at h; exact Bool.false_ne_true h
    · exact hbad.2 h
  simp [get_manpage, hval]

/-- Witness for C1 at the page `ls;rm` (containing `;`) with no section
and an always-succeeding process oracle. -/
theorem c1_witness :
    (get_manpage (fun _ => Except.ok ⟨0, "", ""⟩) "ls;rm" none).1 =
      ⟨ManResultUnion.invalid ⟨"ls;rm", topicRejectNote⟩⟩ ∧
    (get_manpage (fun _ => Except.ok ⟨0, "", ""⟩) "ls;rm" none).2 = [] :=
  c1_metachar_never_executes _ "ls;rm" none ';' (by decide) (by decide)

/-- C4: every non-empty string all of whose characters lie in the search
allow-list (letters, digits, whitespace and the listed punctuation) is
accepted by `validate_search_query`; every string containing a backtick
or a semicolon is rejected; the empty string is rejected. -/
theorem c4_validate_search_query_characterisation :
    (∀ s : String, s.data ≠ [] → (∀ c ∈ s.data, isSearchChar c = true) →
        validate_search_query s = true)
    ∧ (∀ (s : String) (c : Char), c ∈ s.data → (c = '\x60' ∨ c = ';') →
        validate_search_query s = false)
    ∧ validate_search_query "" = false := by
  refine ⟨?_, ?_, by decide⟩
  · intro s hne hall
    have h1 : s.data.isEmpty = false := by
      cases hd : s.data with
      | nil => exact absurd hd hne
      | cons a l => rfl
    simp only [validate_search_query, h1, Bool.not_false, Bool.true_and,
      List.all_eq_true]
    exact hall
  · intro s c hc hbad
    have hbadc : isSearchChar c = false := by
      rcases hbad with rfl | rfl <;> decide
    refine Bool.eq_false_iff.mpr fun h => ?_
    simp only [validate_search_query, Bool.and_eq_true, List.all_eq_true] at h
    have := h.2 c hc
    rw [hbadc] at this
    exact Bool.false_ne_true this

/-- Witness for C4 at the allow-listed query `copy files`, the
semicolon-containing query `search; ls`, and the empty string. -/
theorem c4_witness :
    validate_search_query "copy files" = true ∧
    validate_search_query "search; ls" = false ∧
    validate_search_query "" = false :=
  ⟨c4_validate_search_query_characterisation.1 "copy files" (by decide) (by decide),
   c4_validate_search_query_characterisation.2.1 "search; ls" ';' (by decide)
     (Or.inr rfl),
   c4_validate_search_query_characterisation.2.2⟩

/-- A leading segment of `s` is also a leading segment of `s ++ t`. -/
lemma listPre_append {n : List Char} : ∀ {s : List Char} (t : List Char),
    listPre n s = true → listPre n (s ++ t) = true := by
  induction n with
  | nil => intro s t _; rfl
  | cons a as ih =>
    intro s t h
    cases s with
    | nil => simp [listPre] at h
    | cons b bs =>
      rw [listPre, Bool.and_eq_true] at h
      rw [List.cons_append, listPre, Bool.and_eq_true]
      exact ⟨h.1, ih t h.2⟩

/-- Every list is a leading segment of itself. -/
lemma listPre_refl : ∀ n : List Char, listPre n n = true := by
  intro n
  induction n with
  | nil => rfl
  | cons a as ih => rw [listPre, Bool.and_eq_true]; exact ⟨beq_self_eq_true a, ih⟩

/-- An occurrence in the right part survives prepending. -/
lemma occursIn_append_right (n a : List Char) : ∀ b : List Char,
    occursIn n b = true → occursIn n (a ++ b) = true := by
  induction a with
  | nil => intro b h; simpa using h
  | cons c cs ih =>
    intro b h
    rw [List.cons_append, occursIn, Bool.or_eq_true]
    exact Or.inr (ih b h)

/-- An occurrence in the left part survives appending. -/
lemma occursIn_append_left (n : List Char) : ∀ a b : List Char,
    occursIn n a = true → occursIn n (a ++ b) = true := by
  intro a
  induction a with
  | nil =>
    intro b h
    rw [occursIn] at h
    have hn : n = [] := by simpa using h
    subst hn
    cases b with
    | nil => rfl
    | cons c cs => rw [List.nil_append, occursIn, Bool.or_eq_true]; exact Or.inl rfl
  | cons c cs ih =>
    intro b h
    rw [occursIn, Bool.or_eq_true] at h
    rw [List.cons_append, occursIn, Bool.or_eq_true]
    rcases h with h | h
    · exact Or.inl (listPre_append b h)
    · exact Or.inr (ih b h)

/-- Every list occurs in itself. -/
lemma occursIn_self : ∀ n : List Char, occursIn n n = true := by
  intro n
  cases n with
  | nil => rfl
  | cons c cs => rw [occursIn, Bool.or_eq_true]; exact Or.inl (listPre_refl _)

/-- String-level form of `occursIn_append_right`. -/
lemma strContains_append_right (a b n : String) (h : strContains b n = true) :
    strContains (a ++ b) n = true := by
  rw [strContains, String.data_append]
  exact occursIn_append_right n.data a.data b.data h

/-- String-level form of `occursIn_append_left`. -/
lemma strContains_append_left (a b n : String) (h : strContains a n = true) :
    strContains (a ++ b) n = true := by
  rw [strContains, String.data_append]
  exact occursIn_append_left n.data a.data b.data h

/-- Every string contains itself. -/
lemma strContains_self (s : String) : strContains s s = true :=
  occursIn_self s.data

/-- Appending a non-empty string never yields the empty string. -/
lemma append_ne_empty_right (a b : String) (hb : b ≠ "") : a ++ b ≠ "" := by
  intro h
  apply hb
  have hd := congrArg String.data h
  rw [String.data_append] at hd
  exact String.ext (List.append_eq_nil.mp hd).2

/-- C5: whenever the process invocation raises the timeout exception,
`execute_call` returns a `ManError` with return code `-1`, empty stdout
and stderr, and a note identifying a timeout and containing the rendered
timeout cause. -/
theorem c5_timeout_envelope (f : List String → Except PyExc CompletedProcess)
    (args : List String) (msg : String)
    (h : f args = Except.error (PyExc.timeoutExpired msg)) :
    execute_call f args =
      Sum.inl ⟨"", "", -1, "Timeout exception " ++ msg ++ "."⟩ ∧
    strContains ("Timeout exception " ++ msg ++ ".") "Timeout" = true ∧
    strContains ("Timeout exception " ++ msg ++ ".") msg = true := by
  refine ⟨?_, ?_, ?_⟩
  · rw [execute_call.eq_def, h]
  · exact strContains_append_left _ "." "Timeout"
      (strContains_append_left "Timeout exception " msg "Timeout" (by decide))
  · exact strContains_append_left _ "." msg
      (strContains_append_right "Timeout exception " msg msg (strContains_self msg))

/-- Witness for C5 with a concrete oracle that raises the timeout
exception on every invocation. -/
theorem c5_witness :
    execute_call (fun _ => Except.error
        (PyExc.timeoutExpired "Command man ls timed out after 5 seconds"))
      ["man", "ls"] =
      Sum.inl ⟨"", "", -1,
        "Timeout exception " ++ "Command man ls timed out after 5 seconds" ++ "."⟩ ∧
    strContains ("Timeout exception " ++ "Command man ls timed out after 5 seconds" ++ ".")
      "Timeout" = true ∧
    strContains ("Timeout exception " ++ "Command man ls timed out after 5 seconds" ++ ".")
      "Command man ls timed out after 5 seconds" = true :=
  c5_timeout_envelope _ ["man", "ls"] "Command man ls timed out after 5 seconds" rfl

/-- C2: every failure of the external process is caught at the
`execute_call` boundary and converted into the `ManError` variant (with
return code `-1` for a process that never completed), and for every
oracle and every input each exposed operation returns a well-formed
envelope holding exactly one variant of the union: an error, the
operation's success variant, or a validation error. -/
theorem c2_no_unhandled_fault :
    (∀ (f : List String → Except PyExc CompletedProcess) (args : List String)
        (e : PyExc), f args = Except.error e →
        ∃ me : ManError, execute_call f args = Sum.inl me ∧ me.return_code = -1)
    ∧ (∀ (f : List String → Except PyExc CompletedProcess) (page : String)
        (sect : Option Int),
        (∃ e, (get_manpage f page sect).1.result = ManResultUnion.err e) ∨
        (∃ p, (get_manpage f page sect).1.result = ManResultUnion.page p) ∨
        (∃ v, (get_manpage f page sect).1.result = ManResultUnion.invalid v))
    ∧ (∀ (f : List String → Except PyExc CompletedProcess) (query : String),
        (∃ e, (search_descriptions f query).1.result = ManResultUnion.err e) ∨
        (∃ r, (search_descriptions f query).1.result = ManResultUnion.search r) ∨
        (∃ v, (search_descriptions f query).1.result = ManResultUnion.invalid v)) := by
  refine ⟨?_, ?_, ?_⟩
  · intro f args e h
    cases e with
    | timeoutExpired msg =>
      exact ⟨⟨"", "", -1, "Timeout exception " ++ msg ++ "."⟩,
        by rw [execute_call.eq_def, h], rfl⟩
    | other msg =>
      exact ⟨⟨"", "", -1, "Unknown exception " ++ msg ++ "."⟩,
        by rw [execute_call.eq_def, h], rfl⟩
  · intro f page sect
    have key : ∀ args : List String,
        (∃ e, (match execute_call f args with
            | Sum.inl e => ((⟨ManResultUnion.err e⟩ : ManResult), [args])
            | Sum.inr out =>
              ((⟨ManResultUnion.page ⟨out.stdout⟩⟩ : ManResult), [args])).1.result
          = ManResultUnion.err e) ∨
        (∃ p, (match execute_call f args with
            | Sum.inl e => ((⟨ManResultUnion.err e⟩ : ManResult), [args])
            | Sum.inr out =>
              ((⟨ManResultUnion.page ⟨out.stdout⟩⟩ : ManResult), [args])).1.result
          = ManResultUnion.page p) ∨
        (∃ v, (match execute_call f args with
            | Sum.inl e => ((⟨ManResultUnion.err e⟩ : ManResult), [args])
            | Sum.inr out =>
              ((⟨ManResultUnion.page ⟨out.stdout⟩⟩ : ManResult), [args])).1.result
          = ManResultUnion.invalid v) := by
      intro args
      cases hE : execute_call f args with
      | inl e => exact Or.inl ⟨e, rfl⟩
      | inr out => exact Or.inr (Or.inl ⟨⟨out.stdout⟩, rfl⟩)
    rw [get_manpage.eq_def]
    split
    · split
      · exact key _
      · split
        · exact key _
        · exact key _
    · exact Or.inr (Or.inr ⟨_, rfl⟩)
  · intro f query
    rw [search_descriptions.eq_def]
    split
    · split
      · exact Or.inl ⟨_, rfl⟩
      · exact Or.inr (Or.inl ⟨_, rfl⟩)
    · exact Or.inr (Or.inr ⟨_, rfl⟩)

/-- Witness for C2 with a concrete oracle that raises a non-timeout
exception on every invocation. -/
theorem c2_witness :
    ∃ me : ManError,
      execute_call (fun _ => Except.error (PyExc.other "boom")) ["man", "ls"] =
        Sum.inl me ∧ me.return_code = -1 :=
  c2_no_unhandled_fault.1 (fun _ => Except.error (PyExc.other "boom"))
    ["man", "ls"] (PyExc.other "boom") rfl

/-- The test `listPre` decides the prefix relation. -/
lemma listPre_iff (n : List Char) : ∀ s : List Char,
    (listPre n s = true ↔ n <+: s) := by
  induction n with
  | nil => intro s; simp [listPre]
  | cons a as ih =>
    intro s
    cases s with
    | nil => simp [listPre]
    | cons b bs =>
      rw [listPre, Bool.and_eq_true, beq_iff_eq, List.cons_prefix_cons, ih bs]

/-- The test `occursIn` decides the contiguous-sublist relation. -/
lemma occursIn_iff (n : List Char) : ∀ h : List Char,
    (occursIn n h = true ↔ n <:+: h) := by
  intro h
  induction h with
  | nil => simp [occursIn, List.isEmpty_iff]
  | cons c cs ih =>
    rw [occursIn, Bool.or_eq_true, listPre_iff, ih, List.infix_cons_iff]

/-- Containment of strings is transitive through an intermediate string. -/
lemma strContains_trans {s n m : String} (h1 : strContains s n = true)
    (h2 : strContains n m = true) : strContains s m = true :=
  (occursIn_iff m.data s.data).mpr
    (((occursIn_iff m.data n.data).mp h2).trans ((occursIn_iff n.data s.data).mp h1))

/-- A process that completed with return code 0, empty stderr and no
not-found marker in stdout produces an empty note, so `execute_call`
returns the completed process itself. -/
lemma execute_call_const_success (f : List String → Except PyExc CompletedProcess)
    (out : String) (hf : ∀ args, f args = Except.ok ⟨0, out, ""⟩)
    (hm : strContains out "No manual entry for " = false) :
    ∀ args, execute_call f args = Sum.inr ⟨0, out, ""⟩ := by
  have hnote : execNote ⟨0, out, ""⟩ = "" := by simp [execNote, hm]
  intro args
  rw [execute_call.eq_def, hf args]
  simp [hnote]

/-- The note of a completed process whose stdout holds the not-found
marker and whose return code is non-zero, written out explicitly. -/
lemma execNote_error_parts (p : CompletedProcess)
    (hm : strContains p.stdout "No manual entry for " = true)
    (hrc : p.returncode ≠ 0) :
    execNote p =
      ((if p.stderr = "" then ""
        else "Unexpected error encountered: " ++ p.stderr ++ "\n") ++
        (p.stdout ++ "\n")) ++
      ("Non zero return code \x60" ++ toString p.returncode ++ "\x60\n") := by
  simp only [execNote]
  rw [if_neg hrc, if_pos hm]

/-- C6: for every valid page name, when the external process completes
with exit code 0, empty stderr and a stdout free of the not-found
marker, `get_manpage` returns a `ManPage` whose text is the captured
stdout exactly. -/
theorem c6_success_returns_stdout
    (f : List String → Except PyExc CompletedProcess) (page out : String)
    (sect : Option Int) (hv : validate_topic page = true)
    (hf : ∀ args, f args = Except.ok ⟨0, out, ""⟩)
    (hm : strContains out "No manual entry for " = false) :
    (get_manpage f page sect).1.result = ManResultUnion.page ⟨out⟩ := by
  have hexec := execute_call_const_success f out hf hm
  rw [get_manpage.eq_def, if_pos hv]
  cases sect <;> simp [hexec]

/-- Witness for C6 at the page `ls` with a concrete successful oracle. -/
theorem c6_witness :
    (get_manpage (fun _ => Except.ok ⟨0, "LS(1) User Commands LS(1)", ""⟩)
        "ls" none).1.result =
      ManResultUnion.page ⟨"LS(1) User Commands LS(1)"⟩ :=
  c6_success_returns_stdout _ "ls" "LS(1) User Commands LS(1)" none
    (by decide) (fun _ => rfl) (by decide)

/-- C7: when the external process completes with exit code 1 and a
stdout containing "No manual entry for foo", `get_manpage` on the page
`foo` returns a `ManError` carrying the real return code 1 whose note
contains both "No manual entry for" and the non-zero-return-code
message. -/
theorem c7_not_found_error
    (f : List String → Except PyExc CompletedProcess) (out errS : String)
    (hf : ∀ args, f args = Except.ok ⟨1, out, errS⟩)
    (hm : strContains out "No manual entry for foo" = true) :
    ∃ me : ManError,
      (get_manpage f "foo" none).1.result = ManResultUnion.err me ∧
      me.return_code = 1 ∧
      strContains me.note "No manual entry for" = true ∧
      strContains me.note "Non zero return code" = true := by
  have hm1 : strContains out "No manual entry for " = true :=
    strContains_trans hm (by decide)
  have hm2 : strContains out "No manual entry for" = true :=
    strContains_trans hm (by decide)
  have hnote := execNote_error_parts ⟨1, out, errS⟩ hm1
    (show (1 : Int) ≠ 0 by decide)
  have hne : ¬ execNote ⟨1, out, errS⟩ = "" := by
    rw [hnote]
    exact append_ne_empty_right _ _
      (append_ne_empty_right _ "\x60\n" (by decide))
  have hexec : ∀ args, execute_call f args =
      Sum.inl ⟨out, errS, 1, execNote ⟨1, out, errS⟩⟩ := by
    intro args
    rw [execute_call.eq_def, hf args]
    simp [hne]
  refine ⟨⟨out, errS, 1, execNote ⟨1, out, errS⟩⟩, ?_, rfl, ?_, ?_⟩
  · rw [get_manpage.eq_def, if_pos (by decide : validate_topic "foo" = true)]
    simp [hexec]
  · show strContains (execNote ⟨1, out, errS⟩) "No manual entry for" = true
    rw [hnote]
    exact strContains_append_left _ _ _
      (strContains_append_right _ (out ++ "\n") _
        (strContains_append_left out "\n" _ hm2))
  · show strContains (execNote ⟨1, out, errS⟩) "Non zero return code" = true
    rw [hnote]
    exact strContains_append_right _ _ _
      (show strContains ("Non zero return code \x60" ++ toString (1 : Int) ++ "\x60\n")
          "Non zero return code" = true by decide)

/-- Witness for C7 with a concrete oracle returning exit code 1 and the
not-found stdout. -/
theorem c7_witness :
    ∃ me : ManError,
      (get_manpage (fun _ => Except.ok ⟨1, "No manual entry for foo", ""⟩)
          "foo" none).1.result = ManResultUnion.err me ∧
      me.return_code = 1 ∧
      strContains me.note "No manual entry for" = true ∧
      strContains me.note "Non zero return code" = true :=
  c7_not_found_error _ "No manual entry for foo" "" (fun _ => rfl) (by decide)

/-- C9: for every valid query, when the external process completes with
exit code 0, empty stderr and a stdout free of the not-found marker,
`search_descriptions` returns a `ManSearchResult` whose entries are the
captured stdout split into lines (order and duplicates preserved, the
trailing empty piece after a final line terminator dropped). -/
theorem c9_search_splits_stdout
    (f : List String → Except PyExc CompletedProcess) (query out : String)
    (hv : validate_search_query query = true)
    (hf : ∀ args, f args = Except.ok ⟨0, out, ""⟩)
    (hm : strContains out "No manual entry for " = false) :
    (search_descriptions f query).1.result =
      ManResultUnion.search ⟨splitlines out⟩ := by
  have hexec := execute_call_const_success f out hf hm
  rw [search_descriptions.eq_def, if_pos hv]
  simp [hexec]

/-- Witness for C9: stdout `"ls (1) - list directory contents\n"` yields
exactly the single entry, the trailing empty line being dropped. -/
theorem c9_witness :
    (search_descriptions
        (fun _ => Except.ok ⟨0, "ls (1) - list directory contents\n", ""⟩)
        "list").1.result =
      ManResultUnion.search ⟨["ls (1) - list directory contents"]⟩ :=
  (c9_search_splits_stdout _ "list" "ls (1) - list directory contents\n"
      (by decide) (fun _ => rfl) (by decide)).trans (by decide)

/-- The second component of the match on the executor outcome inside
`get_manpage` is the singleton invocation trace, whichever branch is
taken. -/
lemma manpage_trace_aux (f : List String → Except PyExc CompletedProcess)
    (args : List String) :
    (match execute_call f args with
      | Sum.inl e => ((⟨ManResultUnion.err e⟩ : ManResult), [args])
      | Sum.inr out =>
        ((⟨ManResultUnion.page ⟨out.stdout⟩⟩ : ManResult), [args])).2 = [args] := by
  cases execute_call f args <;> rfl

/-- For a valid page, the invocation trace of `get_manpage` is exactly
the argument vector built from the optional section. -/
lemma get_manpage_trace (f : List String → Except PyExc CompletedProcess)
    (page : String) (sect : Option Int) (hv : validate_topic page = true) :
    (get_manpage f page sect).2 =
      [match sect with
        | none => ["man", page]
        | some s => if s = 0 then ["man", page] else ["man", toString s, page]] := by
  rw [get_manpage.eq_def, if_pos hv]
  cases sect with
  | none => exact manpage_trace_aux f ["man", page]
  | some s =>
    dsimp only
    by_cases hs : s = 0
    · rw [if_pos hs]
      exact manpage_trace_aux f ["man", page]
    · rw [if_neg hs]
      exact manpage_trace_aux f ["man", toString s, page]

/-- C8: for a valid page, `get_manpage` invokes the executor with argv
`[tool, str(section), page]` when a non-zero section is provided, and
with `[tool, page]` when the section is absent or zero. -/
theorem c8_argv_build (f : List String → Except PyExc CompletedProcess)
    (page : String) (s : Int) (hv : validate_topic page = true) :
    (s ≠ 0 → (get_manpage f page (some s)).2 = [["man", toString s, page]]) ∧
    (get_manpage f page (some 0)).2 = [["man", page]] ∧
    (get_manpage f page none).2 = [["man", page]] := by
  refine ⟨fun hs => ?_, ?_, ?_⟩
  · rw [get_manpage_trace f page (some s) hv]
    simp [hs]
  · rw [get_manpage_trace f page (some 0) hv]
    simp
  · exact get_manpage_trace f page none hv

/-- Witness for C8: `get_manpage("printf", section=3)` invokes the tool
with argv exactly `["man", "3", "printf"]`. -/
theorem c8_witness :
    (get_manpage (fun _ => Except.ok ⟨0, "", ""⟩) "printf" (some 3)).2 =
      [["man", "3", "printf"]] :=
  ((c8_argv_build (fun _ => Except.ok ⟨0, "", ""⟩) "printf" 3 (by decide)).1
      (by decide)).trans (by decide)

/-- C10 counterexample: a negative section is not blocked; with a valid
page `ls` and section `-1` the executor is invoked with the stringified
negative section placed in the argument vector. -/
theorem c10_counterexample :
    (get_manpage (fun _ => Except.ok ⟨0, "", ""⟩) "ls" (some (-1))).2 =
      [["man", "-1", "ls"]] := by decide

/-- C10 amended: a provided section is consumed by `if section:` only,
so every non-zero integer section — negative ones included — is
stringified and placed in the executor argument vector unchecked. -/
theorem c10_negative_section_passthrough
    (f : List String → Except PyExc CompletedProcess) (page : String)
    (s : Int) (hv : validate_topic page = true) (hs : s < 0) :
    (get_manpage f page (some s)).2 = [["man", toString s, page]] := by
  rw [get_manpage_trace f page (some s) hv]
  dsimp only
  rw [if_neg (by omega : ¬ s = 0)]

/-- Witness for the amended C10 at page `ls` and section `-2`. -/
theorem c10_witness :
    (get_manpage (fun _ => Except.ok ⟨0, "", ""⟩) "ls" (some (-2))).2 =
      [["man", "-2", "ls"]] :=
  (c10_negative_section_passthrough (fun _ => Except.ok ⟨0, "", ""⟩) "ls" (-2)
      (by decide) (by decide)).trans (by decide)
